import Mathlib

/-!
Verification of the gas-lib-timeout library (checkpoint/resume continuation
mechanism for Google Apps Script batch jobs).

The repository contains several revisions of the same driver:
* `src/Code.js` — `timeout`, `timeoutInParallel`, `createSplitTrigger_`,
  closure-based restartable iterators, `StopError`;
* `src/unnamed/part_002` — the refined revision: `timeout` / `timeout_`,
  `timeoutInParallel` (returning the trigger array), `createSplitTrigger_`,
  prototype-based `RestartableIteratorFrom{Array,Range,RequestWithPageToken}`.

The shallow embedding below models, from the source:
* the per-item callback as a pure function returning `CbOut` (`ok`, `stop`
  for a raised `StopError`, `err e` for any other raised error);
* the wall-clock test `Date.now() - options.start > options.timeout`
  performed after each successful callback as an oracle list `checks`
  (`true` = budget exceeded, consumed one entry per iteration;
  `List.headD false` makes a missing entry mean "budget not exceeded");
* the bounded restartable iterators (array/range share the same `next`
  logic: yield element at `index`, increment, done once `index = length`)
  by an index-driven loop `runArray` over a fixed list;
* the page-token iterator (`next` calls `request(this.index)`, stores the
  response's `pageToken` into `index`, reports `done` when the token is
  JS-falsy) by `runToken` / `tokenIterNext`;
* trigger registration + property persistence by returning the would-be
  persisted cursor inside the `Outcome`.
-/

namespace GasTimeout

/-- Result of one per-item callback invocation, as classified by the
catch clause of `timeout_` in src/unnamed/part_002: normal return, a
raised error satisfying `error instanceof StopError` (in part_002
`StopError.prototype` is a fresh object created over `Error.prototype`,
so exactly the genuine `StopError`s), or a raised error that the catch
rethrows, carrying payload `e`.  The catch clause of src/Code.js widens
the `instanceof` test through its `StopError.prototype = Error.prototype`
aliasing; that classification is modeled separately by `CbOutCode` and
`catchCode`. -/
inductive CbOut (ε : Type) where
  | ok : CbOut ε
  | stop : CbOut ε
  | err : ε → CbOut ε
deriving DecidableEq

/-- How the `for...of` loop of `timeout` / `timeout_` exited. -/
inductive LoopExit (ε : Type) where
  | completed : LoopExit ε
  | timedOut : LoopExit ε
  | stopped : LoopExit ε
  | errored : ε → LoopExit ε
  | fuelOut : LoopExit ε
deriving DecidableEq

/-- The persisted cursor for a bounded source: the JSON property
`{index, length}` written by `registerAndPutTriggerData_`. -/
structure Cursor where
  index : Nat
  length : Nat
deriving DecidableEq

/-- Observable result of one invocation of the driver.
`fatal` = missing-continuation `Error` thrown before the loop;
`errored e` = callback error propagated unchanged;
`stoppedNull` = `StopError` caught, `return null`;
`trigger c` = a new one-shot trigger registered with persisted cursor `c`;
`nullDone` = `return null` with nothing registered. -/
inductive Outcome (ε κ : Type) where
  | fatal : Outcome ε κ
  | errored : ε → Outcome ε κ
  | stoppedNull : Outcome ε κ
  | trigger : κ → Outcome ε κ
  | nullDone : Outcome ε κ
deriving DecidableEq

/-- The callback of a run that never raises the stop signal and never
fails. -/
def okCb {α : Type} : α → CbOut Unit := fun _ => .ok

/-- The `for...of` loop of `timeout_` (src/unnamed/part_002 lines
150-179) over a bounded restartable iterator
(`RestartableIteratorFromArray`, whose `next` yields `array[index++]`
while `index < length`), with the callback pre-classified into `CbOut`
by part_002's catch.  The loop of `timeout` in src/Code.js (lines
116-139) is the same except for its catch classification
(`StopError.prototype = Error.prototype` there): Code.js's loop is this
one composed with `catchCode`. Arguments: fuel (the driver
passes exactly `length - index`, the number of remaining items), the
iterator's `index` and `length`, and the timeout-check oracle. Returns
the values passed to the callback, the final `index`, and how the loop
exited. -/
def runArray {α ε : Type} [Inhabited α] (arr : List α) (cb : α → CbOut ε) :
    Nat → Nat → Nat → List Bool → List α × Nat × LoopExit ε
  | 0, index, _, _ => ([], index, .completed)
  | fuel + 1, index, length, checks =>
    if index < length then
      match cb (arr.getD index default) with
      | .stop => ([arr.getD index default], index + 1, .stopped)
      | .err e => ([arr.getD index default], index + 1, .errored e)
      | .ok =>
        if checks.headD false then ([arr.getD index default], index + 1, .timedOut)
        else
          let r := runArray arr cb fuel (index + 1) length checks.tail
          (arr.getD index default :: r.1, r.2.1, r.2.2)
    else ([], index, .completed)

/-- Loop plus post-loop decision of `timeout_` (src/unnamed/part_002
lines 145-196) for a bounded iterator whose restored cursor is `c`:
on a caught stop signal return `null`; on a rethrown callback error
propagate it; otherwise register a new trigger and persist
`{index, length}` exactly when `iterator.index < iterator.length`.
`timeout` of src/Code.js runs the same loop — with its catch
classification given by `catchCode` — and, for a bounded iterator, the
same post-loop test. -/
def timeoutBody_ {α ε : Type} [Inhabited α] (arr : List α) (cb : α → CbOut ε)
    (checks : List Bool) (c : Cursor) : List α × Outcome ε Cursor :=
  let r := runArray arr cb (c.length - c.index) c.index c.length checks
  match r.2.2 with
  | .stopped => (r.1, .stoppedNull)
  | .errored e => (r.1, .errored e)
  | _ => if r.2.1 < c.length then (r.1, .trigger ⟨r.2.1, c.length⟩) else (r.1, .nullDone)

/-- A resumption invocation of `timeout_` (src/unnamed/part_002 lines
136-144): the event carries a `triggerUid`; a missing stored property is
a fatal `Error` thrown before any item is processed, otherwise the
restored cursor is merged into the iterator and the loop runs. -/
def timeoutResume_ {α ε : Type} [Inhabited α] (arr : List α) (cb : α → CbOut ε)
    (checks : List Bool) (stored : Option Cursor) : List α × Outcome ε Cursor :=
  match stored with
  | none => ([], .fatal)
  | some c => timeoutBody_ arr cb checks c

/-- A fresh-start invocation of `timeout_` in src/unnamed/part_002: the
`for...of` loop sits inside `if (event && event.triggerUid)`, so no item
is processed; the first disjunct `(!event || !event.triggerUid)` of the
post-loop test then registers one trigger persisting the fresh cursor. -/
def timeoutFresh_ {α : Type} (arr : List α) (ε : Type) : List α × Outcome ε Cursor :=
  ([], .trigger ⟨0, arr.length⟩)

end GasTimeout

namespace GasTimeout

/-- `createSplitTrigger_(split, index, length, ...)` of src/Code.js lines
238-268 and src/unnamed/part_002 lines 206-227: recursive halving;
`left = floor((length - index) / 2)`; when `split > 0 && left > 1` recurse
on the two halves and concatenate, else register one trigger for the whole
`[index, length)` segment.  Each returned pair is the `{index, length}`
property persisted for one created trigger. -/
def createSplitTrigger_ : Nat → Nat → Nat → List (Nat × Nat)
  | 0, index, length => [(index, length)]
  | split + 1, index, length =>
    let left := (length - index) / 2
    if 1 < left then
      createSplitTrigger_ split index (index + left) ++
        createSplitTrigger_ split (index + left) length
    else [(index, length)]

/-- The half-open range `[index, length)` of one segment, as the list of
its indices. -/
def segIndices (p : Nat × Nat) : List Nat := List.range' p.1 (p.2 - p.1)

theorem range'_glue (s m n : Nat) :
    List.range' s m ++ List.range' (s + m) n = List.range' s (m + n) := by
  induction m generalizing s with
  | zero => simp
  | succ k ih =>
    have h1 : s + (k + 1) = (s + 1) + k := by omega
    have h2 : (k + 1) + n = (k + n) + 1 := by omega
    rw [List.range'_succ, List.cons_append, h1, ih (s + 1), h2, List.range'_succ]

theorem createSplitTrigger_base (index length : Nat) :
    createSplitTrigger_ 0 index length = [(index, length)] := rfl

theorem createSplitTrigger_not_rec (split index length : Nat)
    (h : split = 0 ∨ (length - index) / 2 ≤ 1) :
    createSplitTrigger_ split index length = [(index, length)] := by
  cases split with
  | zero => rfl
  | succ s =>
    rcases h with h | h
    · exact absurd h (Nat.succ_ne_zero s)
    · simp only [createSplitTrigger_]
      rw [if_neg (by omega)]

theorem createSplitTrigger_rec (split index length : Nat)
    (h0 : 0 < split) (h1 : 1 < (length - index) / 2) :
    createSplitTrigger_ split index length =
      createSplitTrigger_ (split - 1) index (index + (length - index) / 2) ++
        createSplitTrigger_ (split - 1) (index + (length - index) / 2) length := by
  cases split with
  | zero => omega
  | succ s =>
    simp only [createSplitTrigger_, Nat.succ_sub_one]
    rw [if_pos h1]

theorem createSplitTrigger_union (split : Nat) :
    ∀ index length : Nat, index ≤ length →
      (createSplitTrigger_ split index length).flatMap segIndices =
        List.range' index (length - index) := by
  induction split with
  | zero =>
    intro index length _
    simp [createSplitTrigger_, segIndices]
  | succ s ih =>
    intro index length h
    by_cases hl : 1 < (length - index) / 2
    · have hle : (length - index) / 2 ≤ length - index := Nat.div_le_self _ _
      rw [createSplitTrigger_rec (s + 1) index length (Nat.succ_pos s) hl,
        Nat.succ_sub_one, List.flatMap_append,
        ih index (index + (length - index) / 2) (by omega),
        ih (index + (length - index) / 2) length (by omega)]
      have h1 : index + (length - index) / 2 - index = (length - index) / 2 := by omega
      have h2 : length - (index + (length - index) / 2)
          = (length - index) - (length - index) / 2 := by omega
      rw [h1, h2]
      have := range'_glue index ((length - index) / 2)
        ((length - index) - (length - index) / 2)
      have h3 : (length - index) / 2 + ((length - index) - (length - index) / 2)
          = length - index := by omega
      rw [h3] at this
      exact this
    · rw [createSplitTrigger_not_rec (s + 1) index length (Or.inr (by omega))]
      simp [segIndices]

theorem createSplitTrigger_card (split : Nat) :
    ∀ index length : Nat, (createSplitTrigger_ split index length).length ≤ 2 ^ split := by
  induction split with
  | zero => intro index length; simp [createSplitTrigger_]
  | succ s ih =>
    intro index length
    by_cases hl : 1 < (length - index) / 2
    · rw [createSplitTrigger_rec (s + 1) index length (Nat.succ_pos s) hl,
        Nat.succ_sub_one, List.length_append]
      have ha := ih index (index + (length - index) / 2)
      have hb := ih (index + (length - index) / 2) length
      have : (2 : Nat) ^ (s + 1) = 2 ^ s + 2 ^ s := by ring
      omega
    · rw [createSplitTrigger_not_rec (s + 1) index length (Or.inr (by omega))]
      have : (1 : Nat) ≤ 2 ^ (s + 1) := Nat.one_le_two_pow
      simpa using this

theorem createSplitTrigger_bounds (split : Nat) :
    ∀ index length : Nat, ∀ p ∈ createSplitTrigger_ split index length,
      index ≤ p.1 ∧ p.2 ≤ length := by
  induction split with
  | zero =>
    intro index length p hp
    simp [createSplitTrigger_] at hp
    subst hp; exact ⟨Nat.le_refl _, Nat.le_refl _⟩
  | succ s ih =>
    intro index length p hp
    by_cases hl : 1 < (length - index) / 2
    · rw [createSplitTrigger_rec (s + 1) index length (Nat.succ_pos s) hl,
        Nat.succ_sub_one, List.mem_append] at hp
      rcases hp with hp | hp
      · have := ih index (index + (length - index) / 2) p hp
        have hle : (length - index) / 2 ≤ length - index := Nat.div_le_self _ _
        exact ⟨this.1, by omega⟩
      · have := ih (index + (length - index) / 2) length p hp
        exact ⟨by omega, this.2⟩
    · rw [createSplitTrigger_not_rec (s + 1) index length (Or.inr (by omega))] at hp
      simp at hp
      subst hp; exact ⟨Nat.le_refl _, Nat.le_refl _⟩

theorem createSplitTrigger_pairwise (split : Nat) :
    ∀ index length : Nat,
      (createSplitTrigger_ split index length).Pairwise
        (fun p q : Nat × Nat => p.2 ≤ q.1) := by
  induction split with
  | zero => intro index length; simp [createSplitTrigger_]
  | succ s ih =>
    intro index length
    by_cases hl : 1 < (length - index) / 2
    · rw [createSplitTrigger_rec (s + 1) index length (Nat.succ_pos s) hl,
        Nat.succ_sub_one]
      refine List.pairwise_append.mpr ⟨ih _ _, ih _ _, ?_⟩
      intro p hp q hq
      have h1 := createSplitTrigger_bounds s index (index + (length - index) / 2) p hp
      have h2 := createSplitTrigger_bounds s (index + (length - index) / 2) length q hq
      omega
    · rw [createSplitTrigger_not_rec (s + 1) index length (Or.inr (by omega))]
      simp

/-- Claim C6: for every starting range `[index, length)` and every split
factor, the recursive range splitter `createSplitTrigger_` yields segments
that are pairwise disjoint (here: consecutive, each ending before the next
begins) and whose indices, concatenated in order, are exactly the input
range — so their union is the range and no index is duplicated; it yields
at most `2 ^ split` segments; for `split = 0` it yields exactly the one
segment equal to the input range; and it recurses on the two halves
exactly when splits remain and the left half `floor((length-index)/2)`
would contain more than 1 item, otherwise yielding the single whole
segment. -/
theorem claim_C6 (s i l : Nat) (h : i ≤ l) :
    ((createSplitTrigger_ s i l).flatMap segIndices = List.range' i (l - i))
    ∧ (createSplitTrigger_ s i l).length ≤ 2 ^ s
    ∧ (createSplitTrigger_ s i l).Pairwise (fun p q : Nat × Nat => p.2 ≤ q.1)
    ∧ createSplitTrigger_ 0 i l = [(i, l)]
    ∧ ((s = 0 ∨ (l - i) / 2 ≤ 1) → createSplitTrigger_ s i l = [(i, l)])
    ∧ (∀ t, 0 < t → 1 < (l - i) / 2 →
        createSplitTrigger_ t i l =
          createSplitTrigger_ (t - 1) i (i + (l - i) / 2) ++
            createSplitTrigger_ (t - 1) (i + (l - i) / 2) l) :=
  ⟨createSplitTrigger_union s i l h, createSplitTrigger_card s i l,
    createSplitTrigger_pairwise s i l, createSplitTrigger_base i l,
    createSplitTrigger_not_rec s i l,
    fun t ht hl => createSplitTrigger_rec t i l ht hl⟩

/-- Witness for claim C6, instantiated at the spec's example range
`[0, 17)` with split factor 2. -/
theorem claim_C6_witness :
    (0 : Nat) ≤ 17 ∧
    (((createSplitTrigger_ 2 0 17).flatMap segIndices = List.range' 0 (17 - 0))
      ∧ (createSplitTrigger_ 2 0 17).length ≤ 2 ^ 2
      ∧ (createSplitTrigger_ 2 0 17).Pairwise (fun p q : Nat × Nat => p.2 ≤ q.1)
      ∧ createSplitTrigger_ 0 0 17 = [(0, 17)]
      ∧ ((2 = 0 ∨ (17 - 0) / 2 ≤ 1) → createSplitTrigger_ 2 0 17 = [(0, 17)])
      ∧ (∀ t, 0 < t → 1 < (17 - 0) / 2 →
          createSplitTrigger_ t 0 17 =
            createSplitTrigger_ (t - 1) 0 (0 + (17 - 0) / 2) ++
              createSplitTrigger_ (t - 1) (0 + (17 - 0) / 2) 17)) :=
  ⟨by decide, claim_C6 2 0 17 (by decide)⟩

theorem runArray_index_le {α ε : Type} [Inhabited α] (arr : List α) (cb : α → CbOut ε) :
    ∀ fuel index length checks,
      index ≤ (runArray arr cb fuel index length checks).2.1 := by
  intro fuel
  induction fuel with
  | zero => intro index length checks; simp [runArray]
  | succ f ih =>
    intro index length checks
    simp only [runArray]
    split
    · split
      · simp
      · simp
      · split
        · simp
        · have := ih (index + 1) length checks.tail
          simpa using Nat.le_of_succ_le this
    · simp

theorem runArray_index_lt {α ε : Type} [Inhabited α] (arr : List α) (cb : α → CbOut ε)
    (fuel index length : Nat) (checks : List Bool)
    (h : index < length) (hf : 0 < fuel) :
    index < (runArray arr cb fuel index length checks).2.1 := by
  cases fuel with
  | zero => omega
  | succ f =>
    simp only [runArray]
    rw [if_pos h]
    split
    · simp
    · simp
    · split
      · simp
      · have := runArray_index_le arr cb f (index + 1) length checks.tail
        simpa using this

theorem map_getD_range' {α : Type} [Inhabited α] (arr : List α) (idx n : Nat)
    (h : idx + n ≤ arr.length) :
    (List.range' idx n).map (fun i => arr.getD i default) = (arr.drop idx).take n := by
  apply List.ext_getElem
  · simp
    omega
  · intro j h1 h2
    have hj : j < n := by simpa using h1
    have hb : idx + j < arr.length := by omega
    simp [List.getD_eq_getElem?_getD, List.getElem?_eq_getElem hb]

theorem runArray_ok_spec {α : Type} [Inhabited α] (arr : List α) (length : Nat) :
    ∀ fuel index checks, index ≤ length → length ≤ index + fuel →
      ∃ n ex,
        runArray arr okCb fuel index length checks
          = ((List.range' index n).map (fun i => arr.getD i default), index + n, ex)
        ∧ index + n ≤ length
        ∧ (ex = LoopExit.completed ∨ ex = LoopExit.timedOut)
        ∧ (ex = LoopExit.completed → index + n = length) := by
  intro fuel
  induction fuel with
  | zero =>
    intro index checks h0 h1
    refine ⟨0, .completed, ?_, by omega, Or.inl rfl, fun _ => by omega⟩
    simp [runArray]
  | succ f ih =>
    intro index checks h0 h1
    by_cases h : index < length
    · simp only [runArray, if_pos h, okCb]
      by_cases hc : checks.headD false
      · refine ⟨1, .timedOut, ?_, by omega, Or.inr rfl, by simp⟩
        rw [if_pos hc]
        simp [List.range'_succ]
      · rw [if_neg hc]
        obtain ⟨n, ex, heq, hle, hex, hco⟩ := ih (index + 1) checks.tail (by omega) (by omega)
        refine ⟨n + 1, ex, ?_, by omega, hex, fun he => by have := hco he; omega⟩
        rw [heq]
        simp only [List.range'_succ, List.map_cons]
        refine congrArg₂ Prod.mk rfl (congrArg₂ Prod.mk (by omega) rfl)
    · have : index = length := by omega
      refine ⟨0, .completed, ?_, by omega, Or.inl rfl, fun _ => by omega⟩
      simp [runArray, if_neg h]

theorem runArray_ok_nofire {α : Type} [Inhabited α] (arr : List α) :
    ∀ fuel index length checks, (∀ b ∈ checks, b = false) →
      (runArray arr okCb fuel index length checks).2.2 = LoopExit.completed := by
  intro fuel
  induction fuel with
  | zero => intro index length checks _; simp [runArray]
  | succ f ih =>
    intro index length checks hch
    simp only [runArray, okCb]
    split
    · have hhd : checks.headD false = false := by
        cases checks with
        | nil => rfl
        | cons b t => exact hch b (List.mem_cons_self b t)
      rw [if_neg (by rw [hhd]; simp)]
      have : ∀ b ∈ checks.tail, b = false := by
        intro b hb
        exact hch b (List.mem_of_mem_tail hb)
      simpa using ih (index + 1) _ checks.tail this
    · simp

theorem runArray_ok_exits {α : Type} [Inhabited α] (arr : List α) :
    ∀ fuel index length checks,
      (runArray arr okCb fuel index length checks).2.2 = LoopExit.completed ∨
        (runArray arr okCb fuel index length checks).2.2 = LoopExit.timedOut := by
  intro fuel
  induction fuel with
  | zero => intro index length checks; simp [runArray]
  | succ f ih =>
    intro index length checks
    simp only [runArray, okCb]
    split
    · split
      · simp
      · simpa using ih (index + 1) length checks.tail
    · simp

/-- The multi-invocation protocol for a bounded source, starting at
`index`: one invocation of the loop of `timeout` / `timeout_` with the
next schedule of timeout checks; if it ends with `index < length` a
trigger is registered persisting `{index, length}` and the resumption
continues from exactly that cursor with the next schedule (`[]`, i.e. a
budget that is never exceeded, once `scheds` is exhausted).  Returns the
concatenation of the item sequences passed to the callback across the
whole chain of invocations. -/
def chainFrom {α : Type} [Inhabited α] (arr : List α)
    (scheds : List (List Bool)) (index : Nat) : List α :=
  if h : (runArray arr okCb (arr.length - index) index arr.length
      (scheds.headD [])).2.1 < arr.length then
    (runArray arr okCb (arr.length - index) index arr.length (scheds.headD [])).1 ++
      chainFrom arr scheds.tail
        (runArray arr okCb (arr.length - index) index arr.length (scheds.headD [])).2.1
  else
    (runArray arr okCb (arr.length - index) index arr.length (scheds.headD [])).1
termination_by arr.length - index
decreasing_by
  have hidx : index < arr.length := by
    by_contra hc
    have hz : arr.length - index = 0 := by omega
    rw [hz] at h
    simp only [runArray] at h
    omega
  have hlt := runArray_index_lt arr okCb (arr.length - index) index arr.length
    (scheds.headD []) hidx (by omega)
  omega

theorem chainFrom_eq_drop {α : Type} [Inhabited α] (arr : List α) :
    ∀ fuel index scheds, arr.length - index ≤ fuel →
      chainFrom arr scheds index = arr.drop index := by
  intro fuel
  induction fuel with
  | zero =>
    intro index scheds h
    rw [chainFrom]
    have hz : arr.length - index = 0 := by omega
    simp only [hz, runArray]
    rw [dif_neg (by omega)]
    exact (List.drop_eq_nil_of_le (by omega)).symm
  | succ f ih =>
    intro index scheds h
    rw [chainFrom]
    by_cases hidx : index < arr.length
    · obtain ⟨n, ex, heq, hle, _, _⟩ := runArray_ok_spec arr arr.length
        (arr.length - index) index (scheds.headD []) (by omega) (by omega)
      rw [heq]
      by_cases h2 : index + n < arr.length
      · rw [dif_pos h2]
        have hn : 0 < n := by
          have := runArray_index_lt arr okCb (arr.length - index) index arr.length
            (scheds.headD []) hidx (by omega)
          rw [heq] at this
          simpa using this
        rw [ih (index + n) scheds.tail (by omega)]
        rw [map_getD_range' arr index n (by omega)]
        have := List.take_append_drop n (arr.drop index)
        rw [List.drop_drop] at this
        exact this
      · rw [dif_neg h2]
        have hn : index + n = arr.length := by omega
        rw [map_getD_range' arr index n (by omega)]
        rw [List.take_of_length_le (by simp; omega)]
    · have hz : arr.length - index = 0 := by omega
      simp only [hz, runArray]
      rw [dif_neg (by omega)]
      exact (List.drop_eq_nil_of_le (by omega)).symm

/-- Claim C1: for a fixed list and a callback that never raises the stop
signal and never fails, the concatenation of the item sequences passed to
the callback across all invocations — the fresh start plus every
timeout-induced resumption, each resumption seeded with the cursor
persisted by the previous invocation — equals the original list in
original order, each item delivered exactly once.  `chainFrom arr scheds 0`
is that concatenation for the `timeout` of src/Code.js (whose fresh start
runs the loop from index 0); prepending the fresh-start leg of
src/unnamed/part_002's `timeout_` (which processes nothing and registers
the cursor `{index: 0, length: N}`) yields the same list. -/
theorem claim_C1 {α : Type} [Inhabited α] (arr : List α) (scheds : List (List Bool)) :
    chainFrom arr scheds 0 = arr
    ∧ (timeoutFresh_ arr Unit).1 ++ chainFrom arr scheds 0 = arr := by
  have h := chainFrom_eq_drop arr arr.length 0 scheds (by omega)
  simp only [List.drop_zero] at h
  exact ⟨h, by simpa [timeoutFresh_] using h⟩

theorem runArray_stop {α ε : Type} [Inhabited α] (arr : List α) (cb : α → CbOut ε)
    (k length : Nat) (hk : k < length)
    (hstop : cb (arr.getD k default) = CbOut.stop) :
    ∀ fuel index checks, index ≤ k → length ≤ index + fuel →
      (∀ b ∈ checks, b = false) →
      (∀ i, index ≤ i → i < k → cb (arr.getD i default) = CbOut.ok) →
      runArray arr cb fuel index length checks
        = ((List.range' index (k + 1 - index)).map (fun i => arr.getD i default),
            k + 1, LoopExit.stopped) := by
  intro fuel
  induction fuel with
  | zero => intro index checks h0 h1 _ _; omega
  | succ f ih =>
    intro index checks h0 h1 hch hok
    have hil : index < length := by omega
    simp only [runArray, if_pos hil]
    by_cases hik : index = k
    · subst hik
      rw [hstop]
      have h2 : index + 1 - index = 1 := by omega
      simp [h2]
    · have hoki : cb (arr.getD index default) = CbOut.ok :=
        hok index (Nat.le_refl _) (by omega)
      rw [hoki]
      have hhd : checks.headD false = false := by
        cases checks with
        | nil => rfl
        | cons b t => exact hch b (List.mem_cons_self b t)
      rw [if_neg (by rw [hhd]; simp)]
      have htl : ∀ b ∈ checks.tail, b = false :=
        fun b hb => hch b (List.mem_of_mem_tail hb)
      rw [ih (index + 1) checks.tail (by omega) (by omega) htl
        (fun i hi1 hi2 => hok i (by omega) hi2)]
      have h3 : k + 1 - index = (k - index) + 1 := by omega
      have h4 : k + 1 - (index + 1) = k - index := by omega
      rw [h3, h4, List.range'_succ, List.map_cons]

theorem runArray_err {α ε : Type} [Inhabited α] (arr : List α) (cb : α → CbOut ε)
    (k length : Nat) (e : ε) (hk : k < length)
    (herr : cb (arr.getD k default) = CbOut.err e) :
    ∀ fuel index checks, index ≤ k → length ≤ index + fuel →
      (∀ b ∈ checks, b = false) →
      (∀ i, index ≤ i → i < k → cb (arr.getD i default) = CbOut.ok) →
      runArray arr cb fuel index length checks
        = ((List.range' index (k + 1 - index)).map (fun i => arr.getD i default),
            k + 1, LoopExit.errored e) := by
  intro fuel
  induction fuel with
  | zero => intro index checks h0 h1 _ _; omega
  | succ f ih =>
    intro index checks h0 h1 hch hok
    have hil : index < length := by omega
    simp only [runArray, if_pos hil]
    by_cases hik : index = k
    · subst hik
      rw [herr]
      have h2 : index + 1 - index = 1 := by omega
      simp [h2]
    · have hoki : cb (arr.getD index default) = CbOut.ok :=
        hok index (Nat.le_refl _) (by omega)
      rw [hoki]
      have hhd : checks.headD false = false := by
        cases checks with
        | nil => rfl
        | cons b t => exact hch b (List.mem_cons_self b t)
      rw [if_neg (by rw [hhd]; simp)]
      have htl : ∀ b ∈ checks.tail, b = false :=
        fun b hb => hch b (List.mem_of_mem_tail hb)
      rw [ih (index + 1) checks.tail (by omega) (by omega) htl
        (fun i hi1 hi2 => hok i (by omega) hi2)]
      have h3 : k + 1 - index = (k - index) + 1 := by omega
      have h4 : k + 1 - (index + 1) = k - index := by omega
      rw [h3, h4, List.range'_succ, List.map_cons]

/-- Claim C4: for a bounded source of `N` items and a run whose time
budget is never exceeded, a callback that raises the stop signal
(`StopError`) on item `k` (`k < N`) results in items `[0, k]` passed to
the callback — in source order, nothing beyond `k` — no continuation
registered for that segment, and a graceful `return null`
(`Outcome.stoppedNull`), not a failure. -/
theorem claim_C4 {α ε : Type} [Inhabited α] (arr : List α) (cb : α → CbOut ε)
    (checks : List Bool) (k : Nat)
    (hk : k < arr.length)
    (hch : ∀ b ∈ checks, b = false)
    (hok : ∀ i, i < k → cb (arr.getD i default) = CbOut.ok)
    (hstop : cb (arr.getD k default) = CbOut.stop) :
    timeoutResume_ arr cb checks (some ⟨0, arr.length⟩)
      = (arr.take (k + 1), Outcome.stoppedNull) := by
  simp only [timeoutResume_, timeoutBody_]
  rw [runArray_stop arr cb k arr.length hk hstop (arr.length - 0) 0 checks
    (by omega) (by omega) hch (fun i _ hi => hok i hi)]
  rw [map_getD_range' arr 0 (k + 1 - 0) (by omega)]
  simp

/-- The callback used to witness claim C4: raises the stop signal on the
value 2 and returns normally otherwise. -/
def stopAt2 : Nat → CbOut Unit := fun a => if a = 2 then CbOut.stop else CbOut.ok

/-- Witness for claim C4: the source `[1, 2, 3]`, a callback stopping on
item 1 (the value 2), and an unexceeded budget. -/
theorem claim_C4_witness :
    1 < ([1, 2, 3] : List Nat).length
    ∧ (∀ b ∈ ([] : List Bool), b = false)
    ∧ (∀ i, i < 1 → stopAt2 (([1, 2, 3] : List Nat).getD i default) = CbOut.ok)
    ∧ stopAt2 (([1, 2, 3] : List Nat).getD 1 default) = CbOut.stop
    ∧ timeoutResume_ [1, 2, 3] stopAt2 [] (some ⟨0, ([1, 2, 3] : List Nat).length⟩)
        = (([1, 2, 3] : List Nat).take 2, Outcome.stoppedNull) :=
  ⟨by decide, by decide, by decide, by decide,
    claim_C4 [1, 2, 3] stopAt2 [] 1 (by decide) (by decide) (by decide) (by decide)⟩

/-- What the per-item callback throws (if anything), before any catch
classification: `ok` = normal return; `stop` = an object constructed by
`new StopError(...)`; `errorInstance e` = any other `Error` instance,
for example `new Error('boom')` or a `TypeError`; `nonError e` = a
thrown value that is not an `Error` instance at all. -/
inductive CbOutCode (ε : Type) where
  | ok : CbOutCode ε
  | stop : CbOutCode ε
  | errorInstance : ε → CbOutCode ε
  | nonError : ε → CbOutCode ε
deriving DecidableEq

/-- The catch clause of `timeout` in src/Code.js (lines 125-133) tests
`error instanceof StopError`.  Line 509 sets
`StopError.prototype = Error.prototype`, so the prototype-chain test
accepts every `Error` instance: a genuine `StopError` and a plain
`new Error(...)` alike take the `return null` branch, and only a thrown
non-`Error` value reaches the `throw error` rethrow.  Composing this
classifier with the shared loop `runArray` gives src/Code.js's error
behavior; part_002's catch instead maps `errorInstance e` to
`CbOut.err e`, because its `StopError.prototype` is a fresh object that
no plain `Error` has in its prototype chain. -/
def catchCode {α ε : Type} (cb : α → CbOutCode ε) : α → CbOut ε := fun a =>
  match cb a with
  | .ok => .ok
  | .stop => .stop
  | .errorInstance _ => .stop
  | .nonError e => .err e

/-- The callback used against claim C5: throws the `Error` instance
payload "boom" on the value 2 and returns normally otherwise. -/
def errorInstanceAt2 : Nat → CbOutCode String :=
  fun a => if a = 2 then CbOutCode.errorInstance "boom" else CbOutCode.ok

/-- Counterexample for claim C5: in `timeout` of src/Code.js, a callback
that throws `new Error("boom")` — not a `StopError` — on item 1 of
`[1, 2, 3]` is *swallowed*: because `StopError.prototype =
Error.prototype`, the catch classifies it as the stop signal and the
call returns `null` (`Outcome.stoppedNull`) instead of propagating
`Outcome.errored "boom"`. -/
theorem claim_C5_counterexample :
    timeoutResume_ [1, 2, 3] (catchCode errorInstanceAt2) []
        (some ⟨0, ([1, 2, 3] : List Nat).length⟩)
      = (([1, 2, 3] : List Nat).take 2, Outcome.stoppedNull)
    ∧ (Outcome.stoppedNull : Outcome String Cursor) ≠ Outcome.errored "boom" :=
  ⟨rfl, by decide⟩

/-- Claim C5 (amended): in `timeout_` of src/unnamed/part_002 — whose
`StopError.prototype` is a fresh object over `Error.prototype`, so
`error instanceof StopError` holds exactly for genuine `StopError`s — a
callback error that is not the stop signal is propagated unchanged
(`Outcome.errored e` with the same payload `e`), the cursor is not
persisted, no continuation is registered, and the failed item `k` is not
retried: items `[0, k]` were each passed to the callback exactly once
and the invocation ends there.  In `timeout` of src/Code.js, however,
`StopError.prototype = Error.prototype` makes every `Error` instance
pass the `instanceof StopError` test, so a callback throwing a plain
`new Error(...)` on item `k` is swallowed as the stop signal
(`Outcome.stoppedNull`: `return null`, no continuation, no propagation);
only a thrown non-`Error` value is propagated unchanged there. -/
theorem claim_C5 {α ε : Type} [Inhabited α] (arr : List α) (cb : α → CbOut ε)
    (cbC : α → CbOutCode ε) (cbN : α → CbOutCode ε)
    (checks : List Bool) (k : Nat) (e : ε)
    (hk : k < arr.length)
    (hch : ∀ b ∈ checks, b = false)
    (hok : ∀ i, i < k → cb (arr.getD i default) = CbOut.ok)
    (herr : cb (arr.getD k default) = CbOut.err e)
    (hokC : ∀ i, i < k → cbC (arr.getD i default) = CbOutCode.ok)
    (herrC : cbC (arr.getD k default) = CbOutCode.errorInstance e)
    (hokN : ∀ i, i < k → cbN (arr.getD i default) = CbOutCode.ok)
    (herrN : cbN (arr.getD k default) = CbOutCode.nonError e) :
    timeoutResume_ arr cb checks (some ⟨0, arr.length⟩)
      = (arr.take (k + 1), Outcome.errored e)
    ∧ timeoutResume_ arr (catchCode cbC) checks (some ⟨0, arr.length⟩)
      = (arr.take (k + 1), Outcome.stoppedNull)
    ∧ timeoutResume_ arr (catchCode cbN) checks (some ⟨0, arr.length⟩)
      = (arr.take (k + 1), Outcome.errored e) := by
  refine ⟨?_, ?_, ?_⟩
  · simp only [timeoutResume_, timeoutBody_]
    rw [runArray_err arr cb k arr.length e hk herr (arr.length - 0) 0 checks
      (by omega) (by omega) hch (fun i _ hi => hok i hi)]
    rw [map_getD_range' arr 0 (k + 1 - 0) (by omega)]
    simp
  · simp only [timeoutResume_, timeoutBody_]
    rw [runArray_stop arr (catchCode cbC) k arr.length hk
      (by simp only [catchCode, herrC]) (arr.length - 0) 0 checks
      (by omega) (by omega) hch
      (fun i _ hi => by simp only [catchCode, hokC i hi])]
    rw [map_getD_range' arr 0 (k + 1 - 0) (by omega)]
    simp
  · simp only [timeoutResume_, timeoutBody_]
    rw [runArray_err arr (catchCode cbN) k arr.length e hk
      (by simp only [catchCode, herrN]) (arr.length - 0) 0 checks
      (by omega) (by omega) hch
      (fun i _ hi => by simp only [catchCode, hokN i hi])]
    rw [map_getD_range' arr 0 (k + 1 - 0) (by omega)]
    simp

/-- The callback used to witness claim C5 under part_002's catch: its
catch rethrows the payload "boom" on the value 2. -/
def errAt2 : Nat → CbOut String :=
  fun a => if a = 2 then CbOut.err "boom" else CbOut.ok

/-- The callback used to witness claim C5's non-`Error`-throw clause:
throws the non-`Error` value "boom" on the value 2. -/
def nonErrorAt2 : Nat → CbOutCode String :=
  fun a => if a = 2 then CbOutCode.nonError "boom" else CbOutCode.ok

/-- Witness for claim C5 (amended): the source `[1, 2, 3]`, callbacks
failing on item 1 (the value 2) with payload "boom" — rethrown in
part_002, an `Error` instance and a non-`Error` throw under src/Code.js
— and an unexceeded budget. -/
theorem claim_C5_witness :
    1 < ([1, 2, 3] : List Nat).length
    ∧ (∀ b ∈ ([] : List Bool), b = false)
    ∧ (∀ i, i < 1 → errAt2 (([1, 2, 3] : List Nat).getD i default) = CbOut.ok)
    ∧ errAt2 (([1, 2, 3] : List Nat).getD 1 default) = CbOut.err "boom"
    ∧ (∀ i, i < 1 →
        errorInstanceAt2 (([1, 2, 3] : List Nat).getD i default) = CbOutCode.ok)
    ∧ errorInstanceAt2 (([1, 2, 3] : List Nat).getD 1 default)
        = CbOutCode.errorInstance "boom"
    ∧ (∀ i, i < 1 →
        nonErrorAt2 (([1, 2, 3] : List Nat).getD i default) = CbOutCode.ok)
    ∧ nonErrorAt2 (([1, 2, 3] : List Nat).getD 1 default) = CbOutCode.nonError "boom"
    ∧ timeoutResume_ [1, 2, 3] errAt2 [] (some ⟨0, ([1, 2, 3] : List Nat).length⟩)
        = (([1, 2, 3] : List Nat).take 2, Outcome.errored "boom")
    ∧ timeoutResume_ [1, 2, 3] (catchCode errorInstanceAt2) []
        (some ⟨0, ([1, 2, 3] : List Nat).length⟩)
        = (([1, 2, 3] : List Nat).take 2, Outcome.stoppedNull)
    ∧ timeoutResume_ [1, 2, 3] (catchCode nonErrorAt2) []
        (some ⟨0, ([1, 2, 3] : List Nat).length⟩)
        = (([1, 2, 3] : List Nat).take 2, Outcome.errored "boom") :=
  ⟨by decide, by decide, by decide, by decide, by decide, by decide, by decide,
    by decide,
    (claim_C5 [1, 2, 3] errAt2 errorInstanceAt2 nonErrorAt2 [] 1 "boom"
      (by decide) (by decide) (by decide) (by decide) (by decide) (by decide)
      (by decide) (by decide)).1,
    (claim_C5 [1, 2, 3] errAt2 errorInstanceAt2 nonErrorAt2 [] 1 "boom"
      (by decide) (by decide) (by decide) (by decide) (by decide) (by decide)
      (by decide) (by decide)).2.1,
    (claim_C5 [1, 2, 3] errAt2 errorInstanceAt2 nonErrorAt2 [] 1 "boom"
      (by decide) (by decide) (by decide) (by decide) (by decide) (by decide)
      (by decide) (by decide)).2.2⟩

/-- A response of the paginated request function: the page object handed
to the callback, carrying the next `pageToken` (absent on the last
page). -/
structure Page (α : Type) where
  value : α
  pageToken : Option String
deriving DecidableEq

/-- JS truthiness of a page token: `undefined` and the empty string are
falsy; the iterator's `next` and the post-loop test of `timeout_` both
branch on it. -/
def tokenTruthy : Option String → Bool
  | none => false
  | some s => s != ""

/-- `next()` of `RestartableIteratorFromRequestWithPageToken`
(src/unnamed/part_002 lines 404-420) and of
`createRestartableIteratorFromPageTokenResponse_` (src/Code.js lines
441-461): call `request(this.index)`, store the response's `pageToken`
into `index`, and report the page as the value with `done` exactly when
the token is falsy.  Returns `(value, done, new index)`. -/
def tokenIterNext {α : Type} (req : Option String → Page α) (token : Option String) :
    Page α × Bool × Option String :=
  (req token, !tokenTruthy (req token).pageToken, (req token).pageToken)

/-- The `for...of` loop of `timeout` / `timeout_` over the page-token
iterator.  The host `for...of` protocol discards the value of a `done`
result, so the final page (the one whose response carries no further
token) is never passed to the callback.  `fuel` totalizes the unbounded
loop; drivers are applied with enough fuel for the scenario at hand, and
running out of fuel is reported as `LoopExit.fuelOut`.  Returns the pages
passed to the callback, the final `index` (the stored token), and how the
loop exited. -/
def runToken {α ε : Type} (req : Option String → Page α) (cb : Page α → CbOut ε) :
    Nat → Option String → List Bool → List (Page α) × Option String × LoopExit ε
  | 0, token, _ => ([], token, .fuelOut)
  | fuel + 1, token, checks =>
    if tokenTruthy (req token).pageToken then
      match cb (req token) with
      | .stop => ([req token], (req token).pageToken, .stopped)
      | .err e => ([req token], (req token).pageToken, .errored e)
      | .ok =>
        if checks.headD false then ([req token], (req token).pageToken, .timedOut)
        else
          let r := runToken req cb fuel (req token).pageToken checks.tail
          (req token :: r.1, r.2)
    else ([], (req token).pageToken, .completed)

/-- Loop plus post-loop decision of `timeout_` (src/unnamed/part_002) for
the page-token iterator: the post-loop test
`iterator instanceof RestartableIteratorFromRequestWithPageToken &&
iterator.index` registers a new trigger exactly when the stored token is
truthy. -/
def timeoutTokenBody_ {α ε : Type} (req : Option String → Page α)
    (cb : Page α → CbOut ε) (checks : List Bool) (fuel : Nat)
    (token : Option String) : List (Page α) × Outcome ε (Option String) :=
  let r := runToken req cb fuel token checks
  match r.2.2 with
  | .stopped => (r.1, .stoppedNull)
  | .errored e => (r.1, .errored e)
  | _ => if tokenTruthy r.2.1 then (r.1, .trigger r.2.1) else (r.1, .nullDone)

/-- A resumption invocation of `timeout_` for a page-token source: a
missing stored property for the supplied trigger id is a fatal `Error`
thrown before any page is requested; otherwise the restored token seeds
the iterator. -/
def timeoutTokenResume_ {α ε : Type} (req : Option String → Page α)
    (cb : Page α → CbOut ε) (checks : List Bool) (fuel : Nat)
    (stored : Option (Option String)) : List (Page α) × Outcome ε (Option String) :=
  match stored with
  | none => ([], .fatal)
  | some token => timeoutTokenBody_ req cb checks fuel token

/-- Loop plus post-loop decision of `timeout` in src/Code.js for the
page-token iterator: its post-loop test
`(iterator !== undefined && iterator.length === undefined) ||
(iterator.index < iterator.length)` is satisfied by every page-token
iterator (`length` is always `undefined`), so a trigger is registered
unconditionally whenever the loop ends without a `StopError` or a
propagated callback error — even when the source signaled completion. -/
def timeoutTokenCode {α ε : Type} (req : Option String → Page α)
    (cb : Page α → CbOut ε) (checks : List Bool) (fuel : Nat)
    (token : Option String) : List (Page α) × Outcome ε (Option String) :=
  let r := runToken req cb fuel token checks
  match r.2.2 with
  | .stopped => (r.1, .stoppedNull)
  | .errored e => (r.1, .errored e)
  | _ => (r.1, .trigger r.2.1)

/-- Claim C9: an invocation whose trigger event carries a continuation id
for which the Continuation Store holds no cursor raises a fatal error
surfaced to the caller, and no items are processed under a fabricated
cursor — for bounded sources and for page-token sources alike. -/
theorem claim_C9 {α ε : Type} [Inhabited α] (arr : List α) (cb : α → CbOut ε)
    (checks : List Bool) (req : Option String → Page α) (pcb : Page α → CbOut ε)
    (fuel : Nat) (tchecks : List Bool) :
    timeoutResume_ arr cb checks none = ([], Outcome.fatal)
    ∧ timeoutTokenResume_ req pcb tchecks fuel none = ([], Outcome.fatal) :=
  ⟨rfl, rfl⟩

theorem runArray_completed_ge {α ε : Type} [Inhabited α] (arr : List α)
    (cb : α → CbOut ε) :
    ∀ fuel index length checks, length ≤ index + fuel →
      (runArray arr cb fuel index length checks).2.2 = LoopExit.completed →
      length ≤ (runArray arr cb fuel index length checks).2.1 := by
  intro fuel
  induction fuel with
  | zero =>
    intro index length checks h _
    simpa [runArray] using h
  | succ f ih =>
    intro index length checks h
    simp only [runArray]
    split
    · split
      · simp
      · simp
      · split
        · intro hx
          simp at hx
        · intro hx
          have := ih (index + 1) length checks.tail (by omega)
          simp only at hx
          simpa using this (by simpa using hx)
    · intro _
      exact Nat.le_of_not_lt (by assumption)

theorem runToken_completed_falsy {α ε : Type} (req : Option String → Page α)
    (cb : Page α → CbOut ε) :
    ∀ fuel token checks,
      (runToken req cb fuel token checks).2.2 = LoopExit.completed →
      tokenTruthy (runToken req cb fuel token checks).2.1 = false := by
  intro fuel
  induction fuel with
  | zero => intro token checks h; simp [runToken] at h
  | succ f ih =>
    intro token checks
    simp only [runToken]
    split
    · split
      · simp
      · simp
      · split
        · simp
        · intro hx
          simp only at hx
          have := ih (req token).pageToken checks.tail
          simpa using this (by simpa using hx)
    · intro _
      simpa using (by assumption : ¬tokenTruthy (req token).pageToken = true)

theorem runToken_timedOut_truthy {α ε : Type} (req : Option String → Page α)
    (cb : Page α → CbOut ε) :
    ∀ fuel token checks,
      (runToken req cb fuel token checks).2.2 = LoopExit.timedOut →
      tokenTruthy (runToken req cb fuel token checks).2.1 = true := by
  intro fuel
  induction fuel with
  | zero => intro token checks h; simp [runToken] at h
  | succ f ih =>
    intro token checks
    simp only [runToken]
    split
    · split
      · simp
      · simp
      · split
        · intro _
          assumption
        · intro hx
          simp only at hx
          have := ih (req token).pageToken checks.tail
          simpa using this (by simpa using hx)
    · simp

theorem runToken_ok_exits {α : Type} (req : Option String → Page α) :
    ∀ fuel token checks,
      (runToken req okCb fuel token checks).2.2 = LoopExit.completed ∨
        (runToken req okCb fuel token checks).2.2 = LoopExit.timedOut ∨
        (runToken req okCb fuel token checks).2.2 = LoopExit.fuelOut := by
  intro fuel
  induction fuel with
  | zero => intro token checks; simp [runToken]
  | succ f ih =>
    intro token checks
    simp only [runToken, okCb]
    split
    · split
      · simp
      · simpa using ih (req token).pageToken checks.tail
    · simp

/-- Counterexample input for claim C2: a paginated source whose very
first response carries no `pageToken`. -/
def pageReqNone : Option String → Page Nat := fun _ => ⟨0, none⟩

/-- Counterexample for claim C2: under `timeout` of src/Code.js, a
page-token source that signals completion immediately, with a budget that
is never exceeded (`checks = []`, loop exit `completed`, no item
processed), still registers a continuation (`Outcome.trigger none`) —
the claim states that a continuation is registered only when the loop
was broken by timeout and, for token sources, not once the source
signaled completion. -/
theorem claim_C2_counterexample :
    timeoutTokenCode pageReqNone okCb [] 5 none = ([], Outcome.trigger none)
    ∧ (runToken pageReqNone okCb 5 none []).2.2 = LoopExit.completed
    ∧ (runToken pageReqNone okCb 5 none []).1 = [] := by
  refine ⟨rfl, rfl, rfl⟩

/-- Claim C2 (amended): for a callback that never stops and never fails,
after the loop of `timeout_` ends in a resumption:
(1) for a bounded source with restored cursor `{index: i, length: N}`, a
continuation is registered if and only if the loop was broken by the
time budget being exceeded and the iterator is not exhausted
(`position < bound`);
(2) if the budget is never exceeded, no continuation is registered;
(3) once `position = bound`, none is registered even if the timeout fired
on the very last item;
(4) for a page-token source under `timeout_` of src/unnamed/part_002, no
continuation is registered once the source signaled completion, and
(5) one is always registered when the loop broke by timeout;
(6) but under `timeout` of src/Code.js a page-token source registers a
continuation unconditionally after the loop — even with no timeout and a
completed source — because its post-loop test only checks
`iterator.length === undefined`. -/
theorem claim_C2 {α : Type} [Inhabited α] (arr : List α) (i N : Nat)
    (checks : List Bool) (req : Option String → Page α) (tok : Option String)
    (fuel : Nat) (tchecks : List Bool) :
    ((∃ cur, (timeoutBody_ arr okCb checks ⟨i, N⟩).2 = Outcome.trigger cur)
      ↔ ((runArray arr okCb (N - i) i N checks).2.2 = LoopExit.timedOut
          ∧ (runArray arr okCb (N - i) i N checks).2.1 < N))
    ∧ ((∀ b ∈ checks, b = false) →
        (timeoutBody_ arr okCb checks ⟨i, N⟩).2 = Outcome.nullDone)
    ∧ ((runArray arr okCb (N - i) i N checks).2.1 = N →
        (timeoutBody_ arr okCb checks ⟨i, N⟩).2 = Outcome.nullDone)
    ∧ ((runToken req okCb fuel tok tchecks).2.2 = LoopExit.completed →
        (timeoutTokenBody_ req okCb tchecks fuel tok).2 = Outcome.nullDone)
    ∧ ((runToken req okCb fuel tok tchecks).2.2 = LoopExit.timedOut →
        (timeoutTokenBody_ req okCb tchecks fuel tok).2
          = Outcome.trigger ((runToken req okCb fuel tok tchecks).2.1))
    ∧ ((timeoutTokenCode req okCb tchecks fuel tok).2
        = Outcome.trigger ((runToken req okCb fuel tok tchecks).2.1)) := by
  have hex := runArray_ok_exits arr (N - i) i N checks
  have hge := runArray_completed_ge arr okCb (N - i) i N checks (by omega)
  refine ⟨?_, ?_, ?_, ?_, ?_, ?_⟩
  · simp only [timeoutBody_]
    rcases hex with hc | ht
    · rw [hc]
      have hn := hge hc
      simp only []
      rw [if_neg (by omega)]
      simp [hc]
    · rw [ht]
      simp only []
      by_cases hlt : (runArray arr okCb (N - i) i N checks).2.1 < N
      · rw [if_pos hlt]
        simp [ht, hlt]
      · rw [if_neg hlt]
        simp [ht, hlt]
  · intro hch
    have hc := runArray_ok_nofire arr (N - i) i N checks hch
    have hn := hge hc
    simp only [timeoutBody_]
    rw [hc]
    simp only []
    rw [if_neg (by omega)]
  · intro hn
    simp only [timeoutBody_]
    rcases hex with hc | ht
    · rw [hc]
      simp only []
      rw [if_neg (by omega)]
    · rw [ht]
      simp only []
      rw [if_neg (by omega)]
  · intro hc
    have hf := runToken_completed_falsy req okCb fuel tok tchecks hc
    simp only [timeoutTokenBody_]
    rw [hc]
    simp only []
    rw [if_neg (by rw [hf]; simp)]
  · intro ht
    have hf := runToken_timedOut_truthy req okCb fuel tok tchecks ht
    simp only [timeoutTokenBody_]
    rw [ht]
    simp only []
    rw [if_pos hf]
  · simp only [timeoutTokenCode]
    rcases runToken_ok_exits req fuel tok tchecks with hc | ht | hf
    · rw [hc]
    · rw [ht]
    · rw [hf]

/-- Witness for claim C2 (amended), instantiated on `[10, 20]` with a
budget exceeded after the first item, a budget never exceeded, and a
paginated source that completes immediately. -/
theorem claim_C2_witness :
    (∃ cur, (timeoutBody_ ([10, 20] : List Nat) okCb [true] ⟨0, 2⟩).2
      = Outcome.trigger cur)
    ∧ (timeoutBody_ ([10, 20] : List Nat) okCb [false] ⟨0, 2⟩).2 = Outcome.nullDone
    ∧ (timeoutTokenBody_ pageReqNone okCb [] 5 none).2 = Outcome.nullDone := by
  refine ⟨?_, ?_, ?_⟩
  · exact (claim_C2 [10, 20] 0 2 [true] pageReqNone none 5 []).1.mpr (by decide)
  · exact (claim_C2 [10, 20] 0 2 [false] pageReqNone none 5 []).2.1 (by decide)
  · exact (claim_C2 [10, 20] 0 2 [false] pageReqNone none 5 []).2.2.2.1 (by decide)

theorem runToken_processed_truthy {α ε : Type} (req : Option String → Page α)
    (cb : Page α → CbOut ε) :
    ∀ fuel token checks, ∀ p ∈ (runToken req cb fuel token checks).1,
      tokenTruthy p.pageToken = true := by
  intro fuel
  induction fuel with
  | zero => intro token checks p hp; simp [runToken] at hp
  | succ f ih =>
    intro token checks p hp
    simp only [runToken] at hp
    by_cases ht : tokenTruthy (req token).pageToken
    · rw [if_pos ht] at hp
      rcases hcb : cb (req token) with _ | _ | e <;> rw [hcb] at hp
      · by_cases hc : checks.headD false
        · rw [if_pos hc] at hp
          simp at hp
          subst hp; exact ht
        · rw [if_neg hc] at hp
          simp at hp
          rcases hp with hp | hp
          · subst hp; exact ht
          · exact ih (req token).pageToken checks.tail p hp
      · simp at hp
        subst hp; exact ht
      · simp at hp
        subst hp; exact ht
    · rw [if_neg ht] at hp
      simp at hp

/-- Claim C10 (implicit): in the page-token iterator, the page whose
response carries no further `pageToken` is reported by `next()` as
`{value: page, done: true}`; the `for...of` loop of the driver discards
the value of a `done` result, so that final page is never passed to the
per-item callback — every page that reaches the callback carried a
truthy token — and in particular a source whose very first response has
no `pageToken` has none of its items processed. -/
theorem claim_C10 {α ε : Type} (req : Option String → Page α)
    (cb : Page α → CbOut ε) (token : Option String) (checks : List Bool)
    (fuel : Nat)
    (hdone : tokenTruthy (req token).pageToken = false)
    (hfuel : 0 < fuel) :
    (tokenIterNext req token).1 = req token
    ∧ (tokenIterNext req token).2.1 = true
    ∧ runToken req cb fuel token checks
        = ([], (req token).pageToken, LoopExit.completed)
    ∧ (∀ fuel2 tok2 checks2, ∀ p ∈ (runToken req cb fuel2 tok2 checks2).1,
        tokenTruthy p.pageToken = true) := by
  refine ⟨rfl, by simp [tokenIterNext, hdone], ?_,
    fun fuel2 tok2 checks2 => runToken_processed_truthy req cb fuel2 tok2 checks2⟩
  cases fuel with
  | zero => omega
  | succ f =>
    simp only [runToken]
    rw [if_neg (by rw [hdone]; simp)]

/-- Witness for claim C10: a source whose first response carries no
token. -/
theorem claim_C10_witness :
    tokenTruthy (pageReqNone none).pageToken = false
    ∧ 0 < 3
    ∧ (tokenIterNext pageReqNone none).1 = pageReqNone none
    ∧ (tokenIterNext pageReqNone none).2.1 = true
    ∧ runToken pageReqNone okCb 3 none []
        = ([], (pageReqNone none).pageToken, LoopExit.completed) :=
  ⟨by decide, by decide,
    (claim_C10 pageReqNone okCb none [] 3 (by decide) (by decide)).1,
    (claim_C10 pageReqNone okCb none [] 3 (by decide) (by decide)).2.1,
    (claim_C10 pageReqNone okCb none [] 3 (by decide) (by decide)).2.2.1⟩

/-- Claim C7: for a paginated source whose request function yields tokens
"a", "b", "c", then nothing, a run interrupted by timeout right after
consuming page "b"'s results (the page whose response carried token "b")
persists the cursor token "b" in the registered continuation, and the
resumed run's first request call receives token "b" — producing the page
fetched with "b" — not `undefined` and not "a". -/
theorem claim_C7 {α : Type} (req : Option String → Page α) (p1 p2 p3 p4 : Page α)
    (h1 : req none = p1) (t1 : p1.pageToken = some "a")
    (h2 : req (some "a") = p2) (t2 : p2.pageToken = some "b")
    (h3 : req (some "b") = p3) (t3 : p3.pageToken = some "c")
    (h4 : req (some "c") = p4) (t4 : p4.pageToken = none) :
    timeoutTokenResume_ req okCb [false, true] 4 (some none)
        = ([p1, p2], Outcome.trigger (some "b"))
    ∧ (timeoutTokenResume_ req okCb [] 4 (some (some "b"))).1 = [p3]
    ∧ some "b" ≠ (none : Option String)
    ∧ some "b" ≠ some "a" := by
  have ta : tokenTruthy (some "a") = true := by decide
  have tb : tokenTruthy (some "b") = true := by decide
  have tc : tokenTruthy (some "c") = true := by decide
  have tn : tokenTruthy none = false := rfl
  refine ⟨?_, ?_, by decide, by decide⟩
  · simp [timeoutTokenResume_, timeoutTokenBody_, runToken,
      h1, t1, ta, h2, t2, tb, h3, t3, tc, h4, t4, tn, okCb]
  · simp [timeoutTokenResume_, timeoutTokenBody_, runToken,
      h1, t1, ta, h2, t2, tb, h3, t3, tc, h4, t4, tn, okCb]

/-- The request function used to witness claim C7: successive responses
carry the tokens "a", "b", "c" and then none. -/
def reqABC : Option String → Page Nat
  | none => ⟨1, some "a"⟩
  | some "a" => ⟨2, some "b"⟩
  | some "b" => ⟨3, some "c"⟩
  | _ => ⟨4, none⟩

/-- Witness for claim C7 at the concrete request function `reqABC`. -/
theorem claim_C7_witness :
    reqABC none = ⟨1, some "a"⟩
    ∧ (Page.mk 1 (some "a")).pageToken = some "a"
    ∧ reqABC (some "a") = ⟨2, some "b"⟩
    ∧ (Page.mk 2 (some "b")).pageToken = some "b"
    ∧ reqABC (some "b") = ⟨3, some "c"⟩
    ∧ (Page.mk 3 (some "c")).pageToken = some "c"
    ∧ reqABC (some "c") = ⟨4, none⟩
    ∧ (Page.mk 4 (none : Option String)).pageToken = none
    ∧ timeoutTokenResume_ reqABC okCb [false, true] 4 (some none)
        = ([⟨1, some "a"⟩, ⟨2, some "b"⟩], Outcome.trigger (some "b"))
    ∧ (timeoutTokenResume_ reqABC okCb [] 4 (some (some "b"))).1
        = [⟨3, some "c"⟩] :=
  ⟨by decide, rfl, by decide, rfl, by decide, rfl, by decide, rfl,
    (claim_C7 reqABC ⟨1, some "a"⟩ ⟨2, some "b"⟩ ⟨3, some "c"⟩ ⟨4, none⟩
      (by decide) rfl (by decide) rfl (by decide) rfl (by decide) rfl).1,
    (claim_C7 reqABC ⟨1, some "a"⟩ ⟨2, some "b"⟩ ⟨3, some "c"⟩ ⟨4, none⟩
      (by decide) rfl (by decide) rfl (by decide) rfl (by decide) rfl).2.1⟩

/-- Result of a `timeoutInParallel` call (src/unnamed/part_002 lines
66-126): `rangeError` for `options.split > 4`; `limitError` for the
trigger-quota guard; `triggers segs` for a fresh start that created one
trigger per segment and returned them; `ran out` for a resumption that
delegated to `timeout_`. -/
inductive ParRes (ε : Type) where
  | rangeError : ParRes ε
  | limitError : ParRes ε
  | triggers : List (Nat × Nat) → ParRes ε
  | ran : Outcome ε Cursor → ParRes ε
deriving DecidableEq

/-- `timeoutInParallel` of src/unnamed/part_002 over a bounded (array)
source.  `existing` is `ScriptApp.getProjectTriggers().length`, the count
of currently outstanding project triggers; `stored = none` models a
trigger event with no continuation id (fresh start), `some s` a
resumption whose store lookup yielded `s`.  Order of effects follows the
source: the `options.split > 4` range check, then for a fresh start the
quota guard `2^split > 20 - existing` (fatal, before any trigger is
created) and otherwise `createSplitTrigger_(split, 0, length)`; a
resumption delegates to `timeout_`.  The first component is the list of
items passed to the per-item callback during this call. -/
def timeoutInParallel {α ε : Type} [Inhabited α] (arr : List α) (cb : α → CbOut ε)
    (checks : List Bool) (split : Nat) (existing : Nat)
    (stored : Option (Option Cursor)) : List α × ParRes ε :=
  if 4 < split then ([], .rangeError)
  else
    match stored with
    | none =>
      if (20 : Int) - existing < 2 ^ split then ([], .limitError)
      else ([], .triggers (createSplitTrigger_ split 0 arr.length))
    | some s =>
      match timeoutResume_ arr cb checks s with
      | (processed, out) => (processed, .ran out)

/-- The fresh-start path of `timeoutInParallel` in src/Code.js (lines
185-233): after the same range check and quota guard it calls
`createSplitTrigger_`, but then falls through unconditionally to
`timeout(caller, event, iterator, callback, options)` with the fresh
iterator, which runs the loop from index 0 — processing items — and
returns nothing (`undefined`) to its caller.  Result: the items the
fall-through processed, the segments registered by the splitter, and the
fall-through's own outcome. -/
def timeoutInParallelCodeFresh {α ε : Type} [Inhabited α] (arr : List α)
    (cb : α → CbOut ε) (checks : List Bool) (split existing : Nat) :
    Except String (List α × List (Nat × Nat) × Outcome ε Cursor) :=
  if 4 < split then .error "options.split cannot be greater than 4."
  else if (20 : Int) - existing < 2 ^ split then .error "Limit will be exceede."
  else
    let segs := createSplitTrigger_ split 0 arr.length
    let r := timeoutBody_ arr cb checks ⟨0, arr.length⟩
    .ok (r.1, segs, r.2)

/-- Counterexample for claim C3: in src/Code.js, a fresh-start
`timeoutInParallel` call on the one-item source `[5]` processes item `5`
through the per-item callback (the call falls through to `timeout` after
splitting), so the processed list is `[5]`, not empty, and the call
returns no registrations to its caller. -/
theorem claim_C3_counterexample :
    timeoutInParallelCodeFresh ([5] : List Nat) okCb [] 0 0
      = Except.ok ([5], [(0, 1)], Outcome.nullDone)
    ∧ ([5] : List Nat) ≠ [] :=
  ⟨rfl, by decide⟩

/-- Claim C3 (amended): in `timeoutInParallel` of src/unnamed/part_002, a
fresh-start call (no continuation id in the trigger event) that passes
the range and quota checks processes no item of the source: it only
partitions the full range `[0, bound)` into at most `2 ^ split` segments
and registers one continuation per segment, returning all the resulting
registrations.  (In src/Code.js, by contrast, the fresh-start call
additionally falls through to `timeout`, processing items from index 0
under the budget, and returns none of the registrations — see the
counterexample.) -/
theorem claim_C3 {α ε : Type} [Inhabited α] (arr : List α) (cb : α → CbOut ε)
    (checks : List Bool) (split existing : Nat)
    (h4 : split ≤ 4)
    (hq : (2 : Int) ^ split ≤ 20 - existing) :
    timeoutInParallel arr cb checks split existing none
        = ([], ParRes.triggers (createSplitTrigger_ split 0 arr.length))
    ∧ (createSplitTrigger_ split 0 arr.length).length ≤ 2 ^ split
    ∧ (createSplitTrigger_ split 0 arr.length).flatMap segIndices
        = List.range' 0 arr.length := by
  refine ⟨?_, createSplitTrigger_card split 0 arr.length, ?_⟩
  · simp only [timeoutInParallel]
    rw [if_neg (by omega), if_neg (not_lt.mpr hq)]
  · have := createSplitTrigger_union split 0 arr.length (Nat.zero_le _)
    simpa using this

/-- Witness for claim C3 (amended) on the three-item source `[1, 2, 3]`
with split factor 2 and no outstanding triggers. -/
theorem claim_C3_witness :
    2 ≤ 4
    ∧ (2 : Int) ^ 2 ≤ 20 - (0 : Nat)
    ∧ timeoutInParallel ([1, 2, 3] : List Nat) okCb [] 2 0 none
        = ([], ParRes.triggers (createSplitTrigger_ 2 0 ([1, 2, 3] : List Nat).length))
    ∧ (createSplitTrigger_ 2 0 ([1, 2, 3] : List Nat).length).length ≤ 2 ^ 2
    ∧ (createSplitTrigger_ 2 0 ([1, 2, 3] : List Nat).length).flatMap segIndices
        = List.range' 0 ([1, 2, 3] : List Nat).length :=
  ⟨by decide, by decide,
    (claim_C3 [1, 2, 3] okCb [] 2 0 (by decide) (by decide)).1,
    (claim_C3 [1, 2, 3] okCb [] 2 0 (by decide) (by decide)).2.1,
    (claim_C3 [1, 2, 3] okCb [] 2 0 (by decide) (by decide)).2.2⟩

/-- Claim C8: on a fresh-start `timeoutInParallel` call with a valid
split factor, if `2 ^ split` exceeds the remaining timer slots
(20 minus the count of outstanding project triggers) the call fails with
a fatal error before registering any timer: zero triggers are created and
the split is never silently clamped to fewer segments. -/
theorem claim_C8 {α ε : Type} [Inhabited α] (arr : List α) (cb : α → CbOut ε)
    (checks : List Bool) (split existing : Nat)
    (h4 : split ≤ 4)
    (hq : (20 : Int) - existing < 2 ^ split) :
    timeoutInParallel arr cb checks split existing none = ([], ParRes.limitError) := by
  simp only [timeoutInParallel]
  rw [if_neg (by omega), if_pos hq]

/-- Witness for claim C8: split factor 4 with only 10 timer slots free
(`2 ^ 4 = 16 > 10`). -/
theorem claim_C8_witness :
    4 ≤ 4
    ∧ (20 : Int) - (10 : Nat) < 2 ^ 4
    ∧ timeoutInParallel ([1, 2, 3] : List Nat) okCb [] 4 10 none
        = ([], ParRes.limitError) :=
  ⟨by decide, by decide, claim_C8 [1, 2, 3] okCb [] 4 10 (by decide) (by decide)⟩

end GasTimeout
